import Mathlib

/-!
Shallow embedding of the cloudlet-placement problem model (`src/problem.py`)
and the hybrid firefly / discrete-PSO optimizer (`src/hybrid_ff_pso.py`).

Modelling conventions:
* Machine floats are modelled as exact rationals.
* The device-to-location distance matrix, which the source precomputes once
  from the coordinates at `CloudletProblem.__init__`, is taken as a model
  input (`dist`), exactly as the placement-cost table is.
* Python loops that accumulate a number are translated to `List.foldl` over
  `List.range`, mirroring the iteration order of the source.
* Calls to the random library (`np.random.randint`, `np.random.choice`,
  `random.random`) are modelled by oracle parameters; theorems assume of
  them exactly the documented contract of the library call they stand for.
-/

/-- Catalog entry of `instance['cloudlet_types']`: coverage radius `R` and
capacity triple `CPU`/`MEM`/`STO` (fields as read by `problem.py`). -/
structure CloudletType where
  R : ℚ
  CPU : ℚ
  MEM : ℚ
  STO : ℚ
deriving DecidableEq

instance : Inhabited CloudletType := ⟨⟨0, 0, 0, 0⟩⟩

/-- One entry of `instance['devices_demands']`: resource demand triple. -/
structure Demand where
  cpu : ℚ
  mem : ℚ
  sto : ℚ
deriving DecidableEq

instance : Inhabited Demand := ⟨⟨0, 0, 0⟩⟩

/-- The immutable per-instance data of `CloudletProblem.__init__`
(`problem.py` lines 18-32): counts, catalog, demands, the (type, location)
placement-cost table and the precomputed device-to-location distances. -/
structure CloudletProblem where
  P : ℕ
  E : ℕ
  cloudlet_types : List CloudletType
  demands : List Demand
  placement_cost : ℕ → ℕ → ℚ
  dist : ℕ → ℕ → ℚ

/-- `self.T = len(self.cloudlet_types)`. -/
def CloudletProblem.T (prob : CloudletProblem) : ℕ := prob.cloudlet_types.length

/-- The record returned by `CloudletProblem.evaluate`. -/
structure Metrics where
  placement_cost : ℚ
  latency : ℚ
  penalty : ℚ
  fitness : ℚ
deriving DecidableEq

/-- The `1e-9` tolerance of the radius and capacity checks. -/
def eps : ℚ := 1 / 1000000000

/-- Placement-cost loop of `evaluate` (`problem.py` lines 50-54):
for each location with a nonzero placement add the table cost of the
(1-based) stored type at that location. -/
def CloudletProblem.placementTotal (prob : CloudletProblem) (place_loc : List ℕ) : ℚ :=
  (List.range prob.P).foldl (fun acc p =>
    let c := place_loc.getD p 0
    if 0 < c then acc + prob.placement_cost (c - 1) p else acc) 0

/-- Latency loop of `evaluate` (`problem.py` lines 57-63): each device adds
its distance to its assigned location, or the constant `1e6` when the
assignment index is outside `[0, P)`. -/
def CloudletProblem.latTotal (prob : CloudletProblem) (assign_dev : List ℤ) : ℚ :=
  (List.range prob.E).foldl (fun acc e =>
    let p := assign_dev.getD e 0
    acc + (if p < 0 ∨ (prob.P : ℤ) ≤ p then 1000000 else prob.dist e p.toNat)) 0

/-- One device's coverage-penalty contribution (`problem.py` lines 69-81):
`1e5` if the assignment is out of range, points at an unplaced location, or
at a placed cloudlet whose radius (plus the `1e-9` tolerance) is below the
device's distance. -/
def CloudletProblem.coverageTerm (prob : CloudletProblem)
    (place_loc : List ℕ) (assign_dev : List ℤ) (e : ℕ) : ℚ :=
  let p := assign_dev.getD e 0
  if p < 0 ∨ (prob.P : ℤ) ≤ p then 100000
  else
    let c := place_loc.getD p.toNat 0
    if c = 0 then 100000
    else if (prob.cloudlet_types.getD (c - 1) default).R + eps < prob.dist e p.toNat
      then 100000 else 0

/-- Coverage-penalty loop of `evaluate`. -/
def CloudletProblem.coveragePen (prob : CloudletProblem)
    (place_loc : List ℕ) (assign_dev : List ℤ) : ℚ :=
  (List.range prob.E).foldl (fun acc e => acc + prob.coverageTerm place_loc assign_dev e) 0

/-- Aggregated CPU demand at a location (`problem.py` lines 85-94): sum of
the demands of the devices whose (in-range) assignment is that location.
Read only at `p < P`, where the source's `0 <= p < self.P` guard coincides
with the equality test. -/
def CloudletProblem.cpuUsed (prob : CloudletProblem) (assign_dev : List ℤ) (p : ℕ) : ℚ :=
  ∑ e ∈ Finset.range prob.E,
    if assign_dev.getD e 0 = (p : ℤ) then (prob.demands.getD e default).cpu else 0

/-- Aggregated memory demand at a location. -/
def CloudletProblem.memUsed (prob : CloudletProblem) (assign_dev : List ℤ) (p : ℕ) : ℚ :=
  ∑ e ∈ Finset.range prob.E,
    if assign_dev.getD e 0 = (p : ℤ) then (prob.demands.getD e default).mem else 0

/-- Aggregated storage demand at a location. -/
def CloudletProblem.stoUsed (prob : CloudletProblem) (assign_dev : List ℤ) (p : ℕ) : ℚ :=
  ∑ e ∈ Finset.range prob.E,
    if assign_dev.getD e 0 = (p : ℤ) then (prob.demands.getD e default).sto else 0

/-- One location's capacity-penalty contribution (`problem.py` lines 96-109):
an unplaced location with any positive aggregated demand adds `1e6`; a placed
location adds `overage * 1e4` per resource dimension whose aggregated demand
exceeds the placed type's capacity beyond the `1e-9` tolerance. -/
def CloudletProblem.capacityTerm (prob : CloudletProblem)
    (place_loc : List ℕ) (assign_dev : List ℤ) (p : ℕ) : ℚ :=
  let c := place_loc.getD p 0
  if c = 0 then
    (if 0 < prob.cpuUsed assign_dev p ∨ 0 < prob.memUsed assign_dev p ∨
        0 < prob.stoUsed assign_dev p then 1000000 else 0)
  else
    let t := prob.cloudlet_types.getD (c - 1) default
    (if t.CPU + eps < prob.cpuUsed assign_dev p
      then (prob.cpuUsed assign_dev p - t.CPU) * 10000 else 0) +
    (if t.MEM + eps < prob.memUsed assign_dev p
      then (prob.memUsed assign_dev p - t.MEM) * 10000 else 0) +
    (if t.STO + eps < prob.stoUsed assign_dev p
      then (prob.stoUsed assign_dev p - t.STO) * 10000 else 0)

/-- Capacity-penalty loop of `evaluate`. -/
def CloudletProblem.capacityPen (prob : CloudletProblem)
    (place_loc : List ℕ) (assign_dev : List ℤ) : ℚ :=
  (List.range prob.P).foldl (fun acc p => acc + prob.capacityTerm place_loc assign_dev p) 0

/-- `CloudletProblem.evaluate` (`problem.py` lines 40-122): placement cost,
latency, penalty, and the combined scalar fitness
`0.4 * cost + 0.6 * latency + penalty * penalty_coeff`. -/
def CloudletProblem.evaluate (prob : CloudletProblem)
    (place_loc : List ℕ) (assign_dev : List ℤ) (penalty_coeff : ℚ := 1000000) : Metrics :=
  let placement_total := prob.placementTotal place_loc
  let lat := prob.latTotal assign_dev
  let penalty := prob.coveragePen place_loc assign_dev + prob.capacityPen place_loc assign_dev
  { placement_cost := placement_total
    latency := lat
    penalty := penalty
    fitness := 4 / 10 * placement_total + 6 / 10 * lat + penalty * penalty_coeff }

/-! ### Generic accumulation lemmas -/

/-- A fold that adds one term per element is the initial value plus the sum
of the terms. -/
theorem foldl_add_eq (f : ℕ → ℚ) : ∀ (l : List ℕ) (c : ℚ),
    l.foldl (fun a x => a + f x) c = c + (l.map f).sum := by
  intro l
  induction l with
  | nil => intro c; simp
  | cons x l ih => intro c; simp [ih, add_assoc]

/-- A fold whose body ignores the element is the initial value. -/
theorem foldl_skip (l : List ℕ) (c : ℚ) : l.foldl (fun a _ => a) c = c := by
  induction l with
  | nil => rfl
  | cons x l ih => simp [ih]

/-- Summing a function mapped over `List.range` is the `Finset.range` sum. -/
theorem map_range_sum (f : ℕ → ℚ) : ∀ n, ((List.range n).map f).sum = ∑ i ∈ Finset.range n, f i := by
  intro n
  induction n with
  | zero => simp
  | succ n ih => simp [List.range_succ, Finset.sum_range_succ, ih]

/-- `getD` on an all-zero list is zero. -/
theorem getD_replicate_zero (n p : ℕ) : (List.replicate n (0 : ℕ)).getD p 0 = 0 := by
  rw [List.getD_eq_getElem?_getD, List.getElem?_replicate]
  split <;> simp

/-- The latency loop as a closed sum over the devices. -/
theorem CloudletProblem.latTotal_eq_sum (prob : CloudletProblem) (assign_dev : List ℤ) :
    prob.latTotal assign_dev
      = ∑ e ∈ Finset.range prob.E,
          (if assign_dev.getD e 0 < 0 ∨ (prob.P : ℤ) ≤ assign_dev.getD e 0 then (1000000 : ℚ)
           else prob.dist e (assign_dev.getD e 0).toNat) := by
  unfold CloudletProblem.latTotal
  rw [foldl_add_eq, map_range_sum]
  simp

/-- The coverage-penalty loop as a closed sum over the devices. -/
theorem CloudletProblem.coveragePen_eq_sum (prob : CloudletProblem)
    (place_loc : List ℕ) (assign_dev : List ℤ) :
    prob.coveragePen place_loc assign_dev
      = ∑ e ∈ Finset.range prob.E, prob.coverageTerm place_loc assign_dev e := by
  unfold CloudletProblem.coveragePen
  rw [foldl_add_eq, map_range_sum]
  simp

/-- The capacity-penalty loop as a closed sum over the locations. -/
theorem CloudletProblem.capacityPen_eq_sum (prob : CloudletProblem)
    (place_loc : List ℕ) (assign_dev : List ℤ) :
    prob.capacityPen place_loc assign_dev
      = ∑ p ∈ Finset.range prob.P, prob.capacityTerm place_loc assign_dev p := by
  unfold CloudletProblem.capacityPen
  rw [foldl_add_eq, map_range_sum]
  simp

/-! ### Claims about `evaluate` -/

/-- Problem instance witnessing the missing capacity term of claim C1:
one location, one device with CPU demand 1 assigned in range, no
placement anywhere. -/
def prob1 : CloudletProblem :=
  { P := 1, E := 1,
    cloudlet_types := [⟨1, 1, 1, 1⟩],
    demands := [⟨1, 0, 0⟩],
    placement_cost := fun _ _ => 0,
    dist := fun _ _ => 0 }

/-- C1 (counterexample): with the all-zero placement vector, the in-range
assigned device deposits its demand at location 0, so the unplaced-location
capacity check of `evaluate` adds `1e6` on top of the coverage `1e5`:
the penalty is `1.1e6`, not `1e5 * E = 1e5`. -/
theorem C1_counterexample :
    (prob1.evaluate (List.replicate prob1.P 0) [0]).penalty ≠ 100000 * (prob1.E : ℚ) := by
  norm_num [prob1, CloudletProblem.evaluate, CloudletProblem.coveragePen,
    CloudletProblem.capacityPen, CloudletProblem.coverageTerm, CloudletProblem.capacityTerm,
    CloudletProblem.cpuUsed, CloudletProblem.memUsed, CloudletProblem.stoUsed, eps,
    Finset.sum_range_succ, show List.range 1 = [0] from by decide]

/-- C1 (amended): evaluating any assignment vector against the all-zero
placement vector yields placement cost `0`, latency the sum of the
per-device terms (raw distance when the assignment is in `[0, P)`, the
constant `1e6` otherwise), and penalty `1e5 * E` from coverage plus an
additional `1e6` for every location that receives positive aggregated
demand (cpu, mem or sto) from in-range assignments. -/
theorem C1_all_zero_placement (prob : CloudletProblem) (assign_dev : List ℤ) :
    (prob.evaluate (List.replicate prob.P 0) assign_dev).placement_cost = 0 ∧
    (prob.evaluate (List.replicate prob.P 0) assign_dev).latency
      = (∑ e ∈ Finset.range prob.E,
          (if assign_dev.getD e 0 < 0 ∨ (prob.P : ℤ) ≤ assign_dev.getD e 0 then (1000000 : ℚ)
           else prob.dist e (assign_dev.getD e 0).toNat)) ∧
    (prob.evaluate (List.replicate prob.P 0) assign_dev).penalty
      = 100000 * (prob.E : ℚ)
        + 1000000 * (((Finset.range prob.P).filter (fun p =>
            0 < prob.cpuUsed assign_dev p ∨ 0 < prob.memUsed assign_dev p ∨
            0 < prob.stoUsed assign_dev p)).card : ℚ) := by
  refine ⟨?_, ?_, ?_⟩
  · show prob.placementTotal (List.replicate prob.P 0) = 0
    unfold CloudletProblem.placementTotal
    simp only [getD_replicate_zero]
    simp [foldl_skip]
  · exact prob.latTotal_eq_sum assign_dev
  · show prob.coveragePen (List.replicate prob.P 0) assign_dev
        + prob.capacityPen (List.replicate prob.P 0) assign_dev = _
    have hcov : prob.coveragePen (List.replicate prob.P 0) assign_dev
        = 100000 * (prob.E : ℚ) := by
      rw [CloudletProblem.coveragePen_eq_sum]
      have hterm : ∀ e, prob.coverageTerm (List.replicate prob.P 0) assign_dev e
          = 100000 := by
        intro e
        unfold CloudletProblem.coverageTerm
        simp only [getD_replicate_zero]
        split
        · rfl
        · rfl
      simp [hterm, Finset.sum_const, mul_comm]
    have hcap : prob.capacityPen (List.replicate prob.P 0) assign_dev
        = 1000000 * (((Finset.range prob.P).filter (fun p =>
            0 < prob.cpuUsed assign_dev p ∨ 0 < prob.memUsed assign_dev p ∨
            0 < prob.stoUsed assign_dev p)).card : ℚ) := by
      rw [CloudletProblem.capacityPen_eq_sum]
      have hterm : ∀ p, prob.capacityTerm (List.replicate prob.P 0) assign_dev p
          = (if 0 < prob.cpuUsed assign_dev p ∨ 0 < prob.memUsed assign_dev p ∨
              0 < prob.stoUsed assign_dev p then (1000000 : ℚ) else 0) := by
        intro p
        unfold CloudletProblem.capacityTerm
        simp [getD_replicate_zero]
      rw [Finset.sum_congr rfl fun p _ => hterm p]
      rw [Finset.sum_ite, Finset.sum_const, Finset.sum_const]
      simp [mul_comm]
    rw [hcov, hcap]

/-- C2: under the default `penalty_coeff = 1e6`, the fitness returned by
`evaluate` is `0.4 * placement_cost + 0.6 * latency + penalty * 1e6`, and
the latency is the per-device sum in which an assignment index outside
`[0, P)` contributes the constant `1e6` instead of a distance. -/
theorem C2_fitness_formula (prob : CloudletProblem) (place_loc : List ℕ) (assign_dev : List ℤ)
    (_hpl : place_loc.length = prob.P) (_had : assign_dev.length = prob.E)
    (_hval : ∀ p, p < prob.P → place_loc.getD p 0 ≤ prob.T) :
    (prob.evaluate place_loc assign_dev).fitness
      = 4 / 10 * (prob.evaluate place_loc assign_dev).placement_cost
        + 6 / 10 * (prob.evaluate place_loc assign_dev).latency
        + (prob.evaluate place_loc assign_dev).penalty * 1000000 ∧
    (prob.evaluate place_loc assign_dev).latency
      = ∑ e ∈ Finset.range prob.E,
          (if assign_dev.getD e 0 < 0 ∨ (prob.P : ℤ) ≤ assign_dev.getD e 0 then (1000000 : ℚ)
           else prob.dist e (assign_dev.getD e 0).toNat) :=
  ⟨rfl, prob.latTotal_eq_sum assign_dev⟩

/-- Problem instance for the C2 witness: one location, one device whose
assignment points out of range. -/
def prob2 : CloudletProblem :=
  { P := 1, E := 1,
    cloudlet_types := [⟨1, 1, 1, 1⟩],
    demands := [⟨1, 0, 0⟩],
    placement_cost := fun _ _ => 0,
    dist := fun _ _ => 0 }

/-- Witness for C2 at a concrete instance with an out-of-range assignment. -/
theorem C2_fitness_formula_witness :
    ([1] : List ℕ).length = prob2.P ∧ ([5] : List ℤ).length = prob2.E ∧
    (∀ p, p < prob2.P → ([1] : List ℕ).getD p 0 ≤ prob2.T) ∧
    ((prob2.evaluate [1] [5]).fitness
      = 4 / 10 * (prob2.evaluate [1] [5]).placement_cost
        + 6 / 10 * (prob2.evaluate [1] [5]).latency
        + (prob2.evaluate [1] [5]).penalty * 1000000 ∧
     (prob2.evaluate [1] [5]).latency
      = ∑ e ∈ Finset.range prob2.E,
          (if ([5] : List ℤ).getD e 0 < 0 ∨ (prob2.P : ℤ) ≤ ([5] : List ℤ).getD e 0
           then (1000000 : ℚ)
           else prob2.dist e (([5] : List ℤ).getD e 0).toNat)) :=
  ⟨rfl, rfl, by decide, C2_fitness_formula prob2 [1] [5] rfl rfl (by decide)⟩

/-! ### Global best (`hybrid_ff_pso.py`, `HybridFFPSO.run` lines 180-189, 212-213)

The optimizer seeds `global_best_score = np.inf` (modelled as `⊤` in
`WithTop ℚ`) and, in every generation, walks the freshly evaluated
population in order, replacing the score exactly when a particle's new
fitness is strictly lower; after the moves it appends the current score to
`best_history`.  The evaluation results of a generation are abstracted here
as the list of fitness values the loop walks over, so the theorems hold for
every possible run. -/

/-- One generation's global-best update loop (`run` lines 180-189,
restricted to the `global_best_score` component). -/
def HybridFFPSO.gbStep (gb : WithTop ℚ) (fits : List ℚ) : WithTop ℚ :=
  fits.foldl (fun g f => if (f : WithTop ℚ) < g then (f : WithTop ℚ) else g) gb

/-- The `best_history` list built by `run` (line 213): one entry per
generation, the global-best score after that generation's update loop. -/
def HybridFFPSO.bestHistory (gb : WithTop ℚ) : List (List ℚ) → List (WithTop ℚ)
  | [] => []
  | fits :: rest => HybridFFPSO.gbStep gb fits :: HybridFFPSO.bestHistory (HybridFFPSO.gbStep gb fits) rest

/-- The update loop never increases the global-best score. -/
theorem HybridFFPSO.gbStep_le (gb : WithTop ℚ) (fits : List ℚ) :
    HybridFFPSO.gbStep gb fits ≤ gb := by
  induction fits generalizing gb with
  | nil => exact le_refl gb
  | cons f rest ih =>
    show HybridFFPSO.gbStep (if (f : WithTop ℚ) < gb then (f : WithTop ℚ) else gb) rest ≤ gb
    refine le_trans (ih _) ?_
    split
    · exact le_of_lt (by assumption)
    · exact le_refl gb

/-- The score changes only to the fitness of some walked particle, and only
when that fitness is strictly lower than the incumbent score. -/
theorem HybridFFPSO.gbStep_cases (gb : WithTop ℚ) (fits : List ℚ) :
    HybridFFPSO.gbStep gb fits = gb ∨
      ∃ f ∈ fits, HybridFFPSO.gbStep gb fits = (f : WithTop ℚ) ∧ (f : WithTop ℚ) < gb := by
  induction fits generalizing gb with
  | nil => exact Or.inl rfl
  | cons f rest ih =>
    have hstep : HybridFFPSO.gbStep gb (f :: rest)
        = HybridFFPSO.gbStep (if (f : WithTop ℚ) < gb then (f : WithTop ℚ) else gb) rest := rfl
    by_cases hf : (f : WithTop ℚ) < gb
    · rw [hstep, if_pos hf]
      rcases ih (f : WithTop ℚ) with h | ⟨f', hf', heq, hlt⟩
      · exact Or.inr ⟨f, List.mem_cons_self f rest, h, hf⟩
      · exact Or.inr ⟨f', List.mem_cons_of_mem f hf', heq, lt_trans hlt hf⟩
    · rw [hstep, if_neg hf]
      rcases ih gb with h | ⟨f', hf', heq, hlt⟩
      · exact Or.inl h
      · exact Or.inr ⟨f', List.mem_cons_of_mem f hf', heq, hlt⟩

/-- The history starting from any incumbent score is a non-increasing
chain, with the first entry at most that score. -/
theorem HybridFFPSO.bestHistory_chain (gb : WithTop ℚ) (batches : List (List ℚ)) :
    List.Chain' (fun a b => b ≤ a) (gb :: HybridFFPSO.bestHistory gb batches) := by
  induction batches generalizing gb with
  | nil => simp [HybridFFPSO.bestHistory]
  | cons fits rest ih =>
    show List.Chain' _ (gb :: HybridFFPSO.gbStep gb fits :: _)
    exact List.Chain'.cons (HybridFFPSO.gbStep_le gb fits) (ih (HybridFFPSO.gbStep gb fits))

/-- C4: across a whole run, (1) a generation's global-best update never
increases the score, (2) the score is replaced only by the strictly lower
fitness of some particle evaluated in that generation, and (3) the returned
`best_history` sequence is non-increasing, from any starting score
(the source starts it at `np.inf`, i.e. `⊤`). -/
theorem C4_global_best_monotone :
    (∀ gb fits, HybridFFPSO.gbStep gb fits ≤ gb) ∧
    (∀ gb fits, HybridFFPSO.gbStep gb fits = gb ∨
      ∃ f ∈ fits, HybridFFPSO.gbStep gb fits = (f : WithTop ℚ) ∧ (f : WithTop ℚ) < gb) ∧
    (∀ gb batches, List.Chain' (fun a b => b ≤ a) (HybridFFPSO.bestHistory gb batches)) :=
  ⟨HybridFFPSO.gbStep_le, HybridFFPSO.gbStep_cases,
    fun gb batches => (HybridFFPSO.bestHistory_chain gb batches).tail⟩

/-! ### Pareto archive (`hybrid_ff_pso.py`, `HybridFFPSO.nondominated_archive_update`) -/

/-- One archive entry (`hybrid_ff_pso.py` line 95): a solution snapshot
plus its metrics. -/
structure ArchiveEntry where
  place_loc : List ℕ
  assign_dev : List ℤ
  metrics : Metrics

/-- Pareto dominance on `(placement_cost, latency)` as tested by
`nondominated_archive_update` (lines 81-83, 87-89): both objectives `≤`
and at least one strictly `<`. -/
def Metrics.dominates (m m' : Metrics) : Prop :=
  m.placement_cost ≤ m'.placement_cost ∧ m.latency ≤ m'.latency ∧
    (m.placement_cost < m'.placement_cost ∨ m.latency < m'.latency)

instance (m m' : Metrics) : Decidable (m.dominates m') := by
  unfold Metrics.dominates; infer_instance

/-- `HybridFFPSO.nondominated_archive_update` (lines 70-95): if any entry
dominates the candidate the archive is unchanged (the source breaks out of
the scan and discards its partial `removals` list); otherwise every entry
the candidate dominates is removed and the candidate is appended. -/
def HybridFFPSO.nondominated_archive_update (archive : List ArchiveEntry)
    (sol : List ℕ × List ℤ) (metrics : Metrics) : List ArchiveEntry :=
  if archive.any (fun entry => decide (Metrics.dominates entry.metrics metrics)) then archive
  else (archive.filter (fun entry => decide (¬ Metrics.dominates metrics entry.metrics)))
    ++ [⟨sol.1, sol.2, metrics⟩]

/-- Two entries neither of which dominates the other. -/
def NoDomPair (a b : ArchiveEntry) : Prop :=
  ¬ a.metrics.dominates b.metrics ∧ ¬ b.metrics.dominates a.metrics

/-- The archive invariant: no entry dominates another entry. -/
def PairwiseND (archive : List ArchiveEntry) : Prop := List.Pairwise NoDomPair archive

/-- A single archive update preserves pairwise nondominance. -/
theorem archive_update_preserves (archive : List ArchiveEntry)
    (sol : List ℕ × List ℤ) (metrics : Metrics) (h : PairwiseND archive) :
    PairwiseND (HybridFFPSO.nondominated_archive_update archive sol metrics) := by
  unfold HybridFFPSO.nondominated_archive_update
  split
  · exact h
  · rename_i hnone
    rw [PairwiseND, List.pairwise_append]
    refine ⟨h.sublist (List.filter_sublist _), List.pairwise_singleton _ _, ?_⟩
    intro a ha b hb
    have hb' : b = ⟨sol.1, sol.2, metrics⟩ := by simpa using hb
    subst hb'
    have hmem := List.mem_filter.mp ha
    constructor
    · intro hdom
      exact hnone (List.any_eq_true.mpr ⟨a, hmem.1, by simpa using hdom⟩)
    · exact of_decide_eq_true hmem.2

/-- C3: starting from any pairwise-nondominated archive, after any sequence
of `nondominated_archive_update` calls the archive still contains no entry
that dominates another entry. -/
theorem C3_archive_invariant (archive : List ArchiveEntry)
    (updates : List ((List ℕ × List ℤ) × Metrics)) (h : PairwiseND archive) :
    PairwiseND (updates.foldl
      (fun arch u => HybridFFPSO.nondominated_archive_update arch u.1 u.2) archive) := by
  induction updates generalizing archive with
  | nil => exact h
  | cons u rest ih => exact ih _ (archive_update_preserves _ _ _ h)

/-- Witness for C3: two successive updates on the initially empty archive,
the second candidate dominating the first. -/
theorem C3_archive_invariant_witness :
    PairwiseND [] ∧
    PairwiseND ([((([1], [0]) : List ℕ × List ℤ), (⟨2, 3, 0, 4⟩ : Metrics)),
        ((([2], [0]) : List ℕ × List ℤ), (⟨1, 1, 0, 2⟩ : Metrics))].foldl
      (fun arch u => HybridFFPSO.nondominated_archive_update arch u.1 u.2) []) :=
  ⟨List.Pairwise.nil, C3_archive_invariant [] _ List.Pairwise.nil⟩

/-! ### `CloudletProblem.random_solution` (`problem.py` lines 124-156)

The source draws `active_count = np.random.randint(1, max(1, P // 4) + 1)`,
then `loc_indices = np.random.choice(P, size=active_count, replace=False)`,
a random type for each chosen location, and for an uncovered device the
nearest location via `np.argmin`.  The drawn values are the parameters
`loc_indices` (whose length is the drawn `active_count`), `typeOf` and
`devChoice`; the hypotheses of the range theorem are the contracts of the
corresponding numpy calls. -/

/-- First index attaining the minimum of `f` over a list; ties go to the
earliest element, like `np.argmin` (and like taking the head after the
stable ascending sort the source uses for `alt`). -/
def firstMinBy (f : ℕ → ℚ) : List ℕ → ℕ
  | [] => 0
  | x :: xs => xs.foldl (fun b y => if f y < f b then y else b) x

/-- The running minimizer of the fold stays in the candidate pool. -/
theorem foldl_min_choice_mem (f : ℕ → ℚ) :
    ∀ (xs : List ℕ) (b : ℕ), xs.foldl (fun b y => if f y < f b then y else b) b ∈ b :: xs := by
  intro xs
  induction xs with
  | nil => intro b; exact List.mem_cons_self b []
  | cons y ys ih =>
    intro b
    show ys.foldl _ (if f y < f b then y else b) ∈ _
    rcases List.mem_cons.mp (ih (if f y < f b then y else b)) with h | h
    · rw [h]
      split
      · exact List.mem_cons_of_mem b (List.mem_cons_self y ys)
      · exact List.mem_cons_self b (y :: ys)
    · exact List.mem_cons_of_mem b (List.mem_cons_of_mem y h)

/-- `np.argmin` over a nonempty list returns one of its indices. -/
theorem firstMinBy_mem (f : ℕ → ℚ) (l : List ℕ) (h : l ≠ []) : firstMinBy f l ∈ l := by
  match l with
  | [] => exact absurd rfl h
  | x :: xs =>
    show xs.foldl _ x ∈ x :: xs
    exact foldl_min_choice_mem f xs x

/-- Locations that cover device `e` under the current placement
(`problem.py` lines 144-150): placed, and within the placed type's radius
(no tolerance here, unlike `evaluate`). -/
def CloudletProblem.coverCandidates (prob : CloudletProblem)
    (place_loc : List ℕ) (e : ℕ) : List ℕ :=
  (List.range prob.P).filter (fun p =>
    let c := place_loc.getD p 0
    decide (0 < c) &&
      decide (prob.dist e p ≤ (prob.cloudlet_types.getD (c - 1) default).R))

/-- The placement loop of `random_solution` (lines 133-139): start from the
all-zero vector and store `type + 1` at each chosen location. -/
def CloudletProblem.buildPlacement (prob : CloudletProblem)
    (loc_indices : List ℕ) (typeOf : ℕ → ℕ) : List ℕ :=
  loc_indices.foldl (fun pl p => pl.set p (typeOf p + 1)) (List.replicate prob.P 0)

/-- The assignment loop of `random_solution` (lines 142-155): a device with
covering locations gets a random one of them, otherwise the globally
nearest location. -/
def CloudletProblem.assignDevices (prob : CloudletProblem)
    (place_loc : List ℕ) (devChoice : ℕ → List ℕ → ℕ) : List ℤ :=
  (List.range prob.E).map (fun e =>
    let candidates := prob.coverCandidates place_loc e
    if candidates = [] then ((firstMinBy (prob.dist e) (List.range prob.P) : ℕ) : ℤ)
    else ((devChoice e candidates : ℕ) : ℤ))

/-- `CloudletProblem.random_solution` (lines 124-156) with the random draws
as parameters. -/
def CloudletProblem.random_solution (prob : CloudletProblem)
    (loc_indices : List ℕ) (typeOf : ℕ → ℕ) (devChoice : ℕ → List ℕ → ℕ) :
    List ℕ × List ℤ :=
  let place_loc := prob.buildPlacement loc_indices typeOf
  (place_loc, prob.assignDevices place_loc devChoice)

/-- Pointwise description of a fold of `set`s whose written value depends
only on the position. -/
theorem foldl_set_getD (g : ℕ → ℕ) :
    ∀ (l : List ℕ) (init : List ℕ), (∀ p ∈ l, p < init.length) → ∀ q,
      (l.foldl (fun pl p => pl.set p (g p)) init).getD q 0
        = if q ∈ l then g q else init.getD q 0 := by
  intro l
  induction l with
  | nil => intro init _ q; simp
  | cons p rest ih =>
    intro init hl q
    have hlen : ∀ r ∈ rest, r < (init.set p (g p)).length := by
      intro r hr; rw [List.length_set]; exact hl r (List.mem_cons_of_mem p hr)
    show (rest.foldl _ (init.set p (g p))).getD q 0 = _
    rw [ih (init.set p (g p)) hlen q]
    by_cases hq : q ∈ rest
    · simp [hq]
    · by_cases hqp : q = p
      · subst hqp
        have hq' : q < init.length := hl q (List.mem_cons_self q rest)
        simp [hq, List.getD_eq_getElem?_getD, List.getElem?_set_self hq']
      · have : (init.set p (g p))[q]? = init[q]? := List.getElem?_set_ne (fun h => hqp h.symm)
        simp [hq, hqp, List.getD_eq_getElem?_getD, this]

/-- The fold of `set`s keeps the vector length. -/
theorem foldl_set_length (g : ℕ → ℕ) :
    ∀ (l : List ℕ) (init : List ℕ),
      (l.foldl (fun pl p => pl.set p (g p)) init).length = init.length := by
  intro l
  induction l with
  | nil => intro init; rfl
  | cons p rest ih => intro init; rw [List.foldl_cons, ih, List.length_set]

/-- C6: whenever the drawn values satisfy the numpy contracts
(`randint(1, max(1, P // 4) + 1)` gives the count, `choice(P, size=count,
replace=False)` gives that many distinct in-range locations,
`randint(0, T)` gives a type, `choice(candidates)` picks a member),
`random_solution` returns placement entries in `{0, …, T}` with between `1`
and `max(1, P / 4)` nonzero entries, and assignment entries in `[0, P)`. -/
theorem C6_random_solution_ranges (prob : CloudletProblem)
    (loc_indices : List ℕ) (typeOf : ℕ → ℕ) (devChoice : ℕ → List ℕ → ℕ)
    (hP : 1 ≤ prob.P)
    (hcnt : 1 ≤ loc_indices.length ∧ loc_indices.length ≤ max 1 (prob.P / 4))
    (hnodup : loc_indices.Nodup) (hmem : ∀ p ∈ loc_indices, p < prob.P)
    (htype : ∀ p, typeOf p < prob.T)
    (hchoice : ∀ e l, l ≠ [] → devChoice e l ∈ l) :
    (∀ q, ((prob.random_solution loc_indices typeOf devChoice).1).getD q 0 ≤ prob.T) ∧
    (1 ≤ ((Finset.range prob.P).filter (fun p =>
        ((prob.random_solution loc_indices typeOf devChoice).1).getD p 0 ≠ 0)).card ∧
      ((Finset.range prob.P).filter (fun p =>
        ((prob.random_solution loc_indices typeOf devChoice).1).getD p 0 ≠ 0)).card
        ≤ max 1 (prob.P / 4)) ∧
    (∀ e, e < prob.E →
      0 ≤ ((prob.random_solution loc_indices typeOf devChoice).2).getD e 0 ∧
      ((prob.random_solution loc_indices typeOf devChoice).2).getD e 0 < (prob.P : ℤ)) := by
  have hgetD : ∀ q, ((prob.random_solution loc_indices typeOf devChoice).1).getD q 0
      = if q ∈ loc_indices then typeOf q + 1 else 0 := by
    intro q
    show ((prob.buildPlacement loc_indices typeOf).getD q 0) = _
    unfold CloudletProblem.buildPlacement
    rw [foldl_set_getD (fun p => typeOf p + 1) loc_indices (List.replicate prob.P 0)
      (by intro p hp; rw [List.length_replicate]; exact hmem p hp) q]
    rw [getD_replicate_zero]
  refine ⟨?_, ?_, ?_⟩
  · intro q
    rw [hgetD q]
    split
    · exact Nat.succ_le_of_lt (htype q)
    · exact Nat.zero_le _
  · have hfilter : (Finset.range prob.P).filter (fun p =>
        ((prob.random_solution loc_indices typeOf devChoice).1).getD p 0 ≠ 0)
        = loc_indices.toFinset := by
      ext q
      rw [Finset.mem_filter, Finset.mem_range, List.mem_toFinset, hgetD q]
      constructor
      · rintro ⟨_, hne⟩
        by_contra hq
        exact hne (by rw [if_neg hq])
      · intro hq
        exact ⟨hmem q hq, by rw [if_pos hq]; exact Nat.succ_ne_zero _⟩
    rw [hfilter, List.toFinset_card_of_nodup hnodup]
    exact hcnt
  · intro e he
    have hval : ((prob.random_solution loc_indices typeOf devChoice).2).getD e 0
        = (if prob.coverCandidates (prob.buildPlacement loc_indices typeOf) e = []
           then ((firstMinBy (prob.dist e) (List.range prob.P) : ℕ) : ℤ)
           else ((devChoice e (prob.coverCandidates (prob.buildPlacement loc_indices typeOf) e) : ℕ) : ℤ)) := by
      show ((prob.assignDevices (prob.buildPlacement loc_indices typeOf) devChoice).getD e 0) = _
      unfold CloudletProblem.assignDevices
      rw [List.getD_eq_getElem?_getD, List.getElem?_map, List.getElem?_range he]
      rfl
    rw [hval]
    split
    · have hne : List.range prob.P ≠ [] := by
        intro hnil
        rw [List.range_eq_nil] at hnil
        omega
      have := List.mem_range.mp (firstMinBy_mem (prob.dist e) (List.range prob.P) hne)
      exact ⟨Int.ofNat_nonneg _, by exact_mod_cast this⟩
    · rename_i hne
      have hc := hchoice e _ hne
      have hmem' := List.mem_filter.mp hc
      have := List.mem_range.mp hmem'.1
      exact ⟨Int.ofNat_nonneg _, by exact_mod_cast this⟩

/-- Problem instance for the C6 witness. -/
def prob6 : CloudletProblem :=
  { P := 1, E := 1,
    cloudlet_types := [⟨1, 1, 1, 1⟩],
    demands := [⟨1, 0, 0⟩],
    placement_cost := fun _ _ => 0,
    dist := fun _ _ => 0 }

/-- Witness for C6 at a concrete instance and concrete draws. -/
theorem C6_random_solution_ranges_witness :
    (∀ q, ((prob6.random_solution [0] (fun _ => 0) (fun _ l => l.headD 0)).1).getD q 0
        ≤ prob6.T) ∧
    (1 ≤ ((Finset.range prob6.P).filter (fun p =>
        ((prob6.random_solution [0] (fun _ => 0) (fun _ l => l.headD 0)).1).getD p 0 ≠ 0)).card ∧
      ((Finset.range prob6.P).filter (fun p =>
        ((prob6.random_solution [0] (fun _ => 0) (fun _ l => l.headD 0)).1).getD p 0 ≠ 0)).card
        ≤ max 1 (prob6.P / 4)) ∧
    (∀ e, e < prob6.E →
      0 ≤ ((prob6.random_solution [0] (fun _ => 0) (fun _ l => l.headD 0)).2).getD e 0 ∧
      ((prob6.random_solution [0] (fun _ => 0) (fun _ l => l.headD 0)).2).getD e 0
        < (prob6.P : ℤ)) :=
  C6_random_solution_ranges prob6 [0] (fun _ => 0) (fun _ l => l.headD 0)
    (le_refl 1) (by decide) (by decide) (by decide)
    (fun _ => Nat.one_pos)
    (fun e l h => by
      match l with
      | [] => exact absurd rfl h
      | a :: t => exact List.mem_cons_self a t)

/-! ### `CloudletProblem.repair_solution` (`problem.py` lines 158-255)

The only random call is `np.random.choice(feasible[e])`, modelled by the
oracle `rc`.  The source copies its argument arrays on entry and then
mutates the copies; the model threads the state explicitly. -/

/-- State of the assignment-fix loop (lines 177-198): the working placement
and assignment vectors, and the per-device feasible-location pools computed
at entry (lines 169-175) and extended when a new cloudlet is placed. -/
structure FixState where
  place_loc : List ℕ
  assign_dev : List ℤ
  feasible : List (List ℕ)
deriving DecidableEq

/-- First catalog type whose radius covers the given distance
(lines 187-191): scan `cloudlet_types` in order, stop at the first hit. -/
def CloudletProblem.firstCoveringType (prob : CloudletProblem) (e near_p : ℕ) : Option ℕ :=
  (List.range prob.T).find? (fun t =>
    decide (prob.dist e near_p ≤ (prob.cloudlet_types.getD t default).R))

/-- Body of the assignment-fix loop for one device (lines 178-198).
An assignment is kept only when it is in range and in the device's
feasible pool; otherwise the device is reassigned to a random feasible
location, or — when the pool is empty — the nearest location gets the
first covering type placed (extending the pool) or, failing that, the bare
nearest location. -/
def CloudletProblem.fixStep (prob : CloudletProblem) (rc : ℕ → List ℕ → ℕ)
    (st : FixState) (e : ℕ) : FixState :=
  let p := st.assign_dev.getD e 0
  let fe := st.feasible.getD e []
  if p < 0 ∨ (prob.P : ℤ) ≤ p ∨ ¬ p ∈ fe.map Int.ofNat then
    if fe = [] then
      let near_p := firstMinBy (prob.dist e) (List.range prob.P)
      match prob.firstCoveringType e near_p with
      | some t =>
        { place_loc := st.place_loc.set near_p (t + 1),
          assign_dev := st.assign_dev.set e ((near_p : ℕ) : ℤ),
          feasible := st.feasible.set e (fe ++ [near_p]) }
      | none => { st with assign_dev := st.assign_dev.set e ((near_p : ℕ) : ℤ) }
    else { st with assign_dev := st.assign_dev.set e ((rc e fe : ℕ) : ℤ) }
  else st

/-- The assignment-fix phase: the per-device feasible pools of lines
169-175 (the same placed-and-within-radius test as `random_solution`'s
candidate scan), then the loop of lines 178-198 over the devices. -/
def CloudletProblem.fixAssignments (prob : CloudletProblem) (rc : ℕ → List ℕ → ℕ)
    (place_loc : List ℕ) (assign_dev : List ℤ) : FixState :=
  (List.range prob.E).foldl (prob.fixStep rc)
    ⟨place_loc, assign_dev, (List.range prob.E).map (prob.coverCandidates place_loc)⟩

/-- The three mutable `*_used` arrays of the capacity phase, as functions. -/
structure UsedRes where
  cpu : ℕ → ℚ
  mem : ℕ → ℚ
  sto : ℕ → ℚ

/-- Pointwise additive update of one usage array. -/
def updQ (f : ℕ → ℚ) (p : ℕ) (d : ℚ) : ℕ → ℚ := fun q => if q = p then f q + d else f q

/-- The per-location aggregated demands recomputed at the start of each
pass (lines 210-219); identical aggregation to the one in `evaluate`. -/
def CloudletProblem.usedOf (prob : CloudletProblem) (assign_dev : List ℤ) : UsedRes :=
  { cpu := prob.cpuUsed assign_dev,
    mem := prob.memUsed assign_dev,
    sto := prob.stoUsed assign_dev }

/-- `capacity_of` (lines 201-206): the capacity triple of the type placed
at a location, `(0,0,0)` when none is. -/
def CloudletProblem.capacity_of (prob : CloudletProblem) (place_loc : List ℕ) (p : ℕ) :
    ℚ × ℚ × ℚ :=
  let c := place_loc.getD p 0
  if c = 0 then (0, 0, 0)
  else
    let t := prob.cloudlet_types.getD (c - 1) default
    (t.CPU, t.MEM, t.STO)

/-- Summed demand of one device, the sort key of line 233. -/
def CloudletProblem.totalDemand (prob : CloudletProblem) (e : ℕ) : ℚ :=
  (prob.demands.getD e default).cpu + (prob.demands.getD e default).mem +
    (prob.demands.getD e default).sto

/-- Stable descending insertion by a key: an element is placed before the
first earlier element whose key is `≤` its own, so equal keys keep their
original order — the behaviour of Python's stable `sort(reverse=True)`. -/
def insertDescBy (key : ℕ → ℚ) (x : ℕ) : List ℕ → List ℕ
  | [] => [x]
  | y :: ys => if key y ≤ key x then x :: y :: ys else y :: insertDescBy key x ys

/-- Stable descending sort by a key (line 233). -/
def sortDescBy (key : ℕ → ℚ) (l : List ℕ) : List ℕ := l.foldr (insertDescBy key) []

/-- State threaded through one capacity pass: the working assignment, the
usage arrays, and the pass's `moved` flag. -/
structure MoveState where
  assign_dev : List ℤ
  used : UsedRes
  moved : Bool

/-- The device-moving loop for one overloaded location (lines 234-251):
walk the (descending-demand-sorted) devices assigned there; a device with
no alternative feasible location is skipped; otherwise it moves to its
nearest alternative (`alt.sort(key=dist); alt[0]`), the usage arrays are
updated, and the loop stops early once the location fits again. -/
def CloudletProblem.moveLoop (prob : CloudletProblem) (feasible : List (List ℕ))
    (p : ℕ) (caps : ℚ × ℚ × ℚ) : List ℕ → MoveState → MoveState
  | [], st => st
  | e :: rest, st =>
    let alt := (feasible.getD e []).filter (fun pp => pp ≠ p)
    if alt = [] then prob.moveLoop feasible p caps rest st
    else
      let newp := firstMinBy (prob.dist e) alt
      let d := prob.demands.getD e default
      let usedNew : UsedRes :=
        { cpu := updQ (updQ st.used.cpu p (-d.cpu)) newp d.cpu,
          mem := updQ (updQ st.used.mem p (-d.mem)) newp d.mem,
          sto := updQ (updQ st.used.sto p (-d.sto)) newp d.sto }
      let next : MoveState := ⟨st.assign_dev.set e ((newp : ℕ) : ℤ), usedNew, true⟩
      if usedNew.cpu p ≤ caps.1 ∧ usedNew.mem p ≤ caps.2.1 ∧ usedNew.sto p ≤ caps.2.2
      then next
      else prob.moveLoop feasible p caps rest next

/-- One location's treatment within a pass (lines 222-251): skip unplaced
locations; for a placed location whose current usage exceeds capacity on
some dimension, run the moving loop over its assigned devices sorted by
descending summed demand. -/
def CloudletProblem.passStep (prob : CloudletProblem) (feasible : List (List ℕ))
    (place_loc : List ℕ) (st : MoveState) (p : ℕ) : MoveState :=
  let c := place_loc.getD p 0
  if c = 0 then st
  else
    let caps := prob.capacity_of place_loc p
    if caps.1 < st.used.cpu p ∨ caps.2.1 < st.used.mem p ∨ caps.2.2 < st.used.sto p then
      let assigned := (List.range prob.E).filter (fun e => st.assign_dev.getD e 0 = (p : ℤ))
      prob.moveLoop feasible p caps (sortDescBy prob.totalDemand assigned) st
    else st

/-- One capacity pass (lines 210-251): fresh usage aggregation, then the
per-location treatment in location order, reporting whether anything moved. -/
def CloudletProblem.onePass (prob : CloudletProblem) (feasible : List (List ℕ))
    (place_loc : List ℕ) (assign_dev : List ℤ) : List ℤ × Bool :=
  let st := (List.range prob.P).foldl (prob.passStep feasible place_loc)
    ⟨assign_dev, prob.usedOf assign_dev, false⟩
  (st.assign_dev, st.moved)

/-- The `for _ in range(3)` capacity loop (lines 209-253) with its
early exit when a whole pass moves nothing. -/
def CloudletProblem.capacityFix (prob : CloudletProblem) (feasible : List (List ℕ))
    (place_loc : List ℕ) : ℕ → List ℤ → List ℤ
  | 0, assign_dev => assign_dev
  | n + 1, assign_dev =>
    let r := prob.onePass feasible place_loc assign_dev
    if r.2 then prob.capacityFix feasible place_loc n r.1 else r.1

/-- `CloudletProblem.repair_solution` (lines 158-255): the assignment-fix
phase followed by up to three capacity passes. -/
def CloudletProblem.repair_solution (prob : CloudletProblem) (rc : ℕ → List ℕ → ℕ)
    (place_loc : List ℕ) (assign_dev : List ℤ) : List ℕ × List ℤ :=
  let st := prob.fixAssignments rc place_loc assign_dev
  (st.place_loc, prob.capacityFix st.feasible st.place_loc 3 st.assign_dev)

/-- Writing a nonzero value never turns a nonzero slot into zero. -/
theorem set_getD_ne_zero {l : List ℕ} {i v q : ℕ} (hv : v ≠ 0) (h : l.getD q 0 ≠ 0) :
    (l.set i v).getD q 0 ≠ 0 := by
  by_cases hiq : i = q
  · subst hiq
    by_cases hlen : i < l.length
    · rw [List.getD_eq_getElem?_getD, List.getElem?_set_self hlen]
      simpa using hv
    · rw [List.getD_eq_getElem?_getD, List.getElem?_eq_none (Nat.le_of_not_lt hlen)] at h
      exact absurd rfl h
  · rw [List.getD_eq_getElem?_getD, List.getElem?_set_ne hiq,
      ← List.getD_eq_getElem?_getD]
    exact h

/-- The assignment-fix step never clears a placement slot: it either leaves
the placement vector alone or writes the nonzero value `t + 1`. -/
theorem CloudletProblem.fixStep_preserves_placed (prob : CloudletProblem)
    (rc : ℕ → List ℕ → ℕ) (st : FixState) (e q : ℕ)
    (h : st.place_loc.getD q 0 ≠ 0) :
    ((prob.fixStep rc st e).place_loc).getD q 0 ≠ 0 := by
  unfold CloudletProblem.fixStep
  dsimp only
  split
  · split
    · split
      · exact set_getD_ne_zero (Nat.succ_ne_zero _) h
      · exact h
    · exact h
  · exact h

/-- Placement preservation extends through the whole assignment-fix fold. -/
theorem CloudletProblem.fixFold_preserves_placed (prob : CloudletProblem)
    (rc : ℕ → List ℕ → ℕ) :
    ∀ (l : List ℕ) (st : FixState) (q : ℕ), st.place_loc.getD q 0 ≠ 0 →
      ((l.foldl (prob.fixStep rc) st).place_loc).getD q 0 ≠ 0 := by
  intro l
  induction l with
  | nil => intro st q h; exact h
  | cons e rest ih =>
    intro st q h
    exact ih (prob.fixStep rc st e) q (prob.fixStep_preserves_placed rc st e q h)

/-- C10: `repair_solution` never unplaces a location — every location whose
input placement entry is nonzero still has a nonzero entry in the returned
placement vector (repair may add or overwrite placements, never clear). -/
theorem C10_repair_never_unplaces (prob : CloudletProblem) (rc : ℕ → List ℕ → ℕ)
    (place_loc : List ℕ) (assign_dev : List ℤ) (q : ℕ)
    (h : place_loc.getD q 0 ≠ 0) :
    ((prob.repair_solution rc place_loc assign_dev).1).getD q 0 ≠ 0 := by
  show ((prob.fixAssignments rc place_loc assign_dev).place_loc).getD q 0 ≠ 0
  exact prob.fixFold_preserves_placed rc (List.range prob.E) _ q h

/-- Problem instance for the C10 witness. -/
def prob10 : CloudletProblem :=
  { P := 1, E := 1,
    cloudlet_types := [⟨1, 1, 1, 1⟩],
    demands := [⟨1, 0, 0⟩],
    placement_cost := fun _ _ => 0,
    dist := fun _ _ => 0 }

/-- Witness for C10 at a concrete feasible input. -/
theorem C10_repair_never_unplaces_witness :
    ([1] : List ℕ).getD 0 0 ≠ 0 ∧
    ((prob10.repair_solution (fun _ l => l.headD 0) [1] [0]).1).getD 0 0 ≠ 0 :=
  ⟨by decide, C10_repair_never_unplaces prob10 (fun _ l => l.headD 0) [1] [0] 0 (by decide)⟩

/-- A fold whose step fixes the accumulator is the identity. -/
theorem foldl_fixed_of_step_id {α β : Type _} (f : α → β → α) :
    ∀ (l : List β) (a : α), (∀ x ∈ l, f a x = a) → l.foldl f a = a := by
  intro l
  induction l with
  | nil => intro a _; rfl
  | cons x rest ih =>
    intro a h
    rw [List.foldl_cons, h x (List.mem_cons_self x rest)]
    exact ih a fun y hy => h y (List.mem_cons_of_mem x hy)

/-- C5 (amended): on a solution with zero penalty in which, additionally,
every device's distance to its assigned location is within the placed
type's radius WITHOUT the `1e-9` tolerance (the strict test `repair`
itself uses) and every placed location's aggregated demand is within
capacity WITHOUT the tolerance, `repair_solution` returns the solution
unchanged, so its penalty is still zero. -/
theorem C5_repair_preserves_strict_feasible (prob : CloudletProblem)
    (rc : ℕ → List ℕ → ℕ) (place_loc : List ℕ) (assign_dev : List ℤ)
    (_h0 : (prob.evaluate place_loc assign_dev).penalty = 0)
    (hfeas : ∀ e, e < prob.E →
      0 ≤ assign_dev.getD e 0 ∧ assign_dev.getD e 0 < (prob.P : ℤ) ∧
      0 < place_loc.getD (assign_dev.getD e 0).toNat 0 ∧
      prob.dist e (assign_dev.getD e 0).toNat
        ≤ (prob.cloudlet_types.getD
            (place_loc.getD (assign_dev.getD e 0).toNat 0 - 1) default).R)
    (hcap : ∀ p, p < prob.P → place_loc.getD p 0 ≠ 0 →
      prob.cpuUsed assign_dev p
          ≤ (prob.cloudlet_types.getD (place_loc.getD p 0 - 1) default).CPU ∧
      prob.memUsed assign_dev p
          ≤ (prob.cloudlet_types.getD (place_loc.getD p 0 - 1) default).MEM ∧
      prob.stoUsed assign_dev p
          ≤ (prob.cloudlet_types.getD (place_loc.getD p 0 - 1) default).STO) :
    prob.repair_solution rc place_loc assign_dev = (place_loc, assign_dev) ∧
    (prob.evaluate (prob.repair_solution rc place_loc assign_dev).1
      (prob.repair_solution rc place_loc assign_dev).2).penalty = 0 := by
  have hfix : prob.fixAssignments rc place_loc assign_dev
      = ⟨place_loc, assign_dev, (List.range prob.E).map (prob.coverCandidates place_loc)⟩ := by
    unfold CloudletProblem.fixAssignments
    apply foldl_fixed_of_step_id
    intro e he
    have he' : e < prob.E := List.mem_range.mp he
    obtain ⟨hge, hlt, hplaced, hrad⟩ := hfeas e he'
    unfold CloudletProblem.fixStep
    dsimp only
    rw [if_neg]
    push_neg
    refine ⟨hge, hlt, ?_⟩
    have hfe : ((List.range prob.E).map (prob.coverCandidates place_loc)).getD e []
        = prob.coverCandidates place_loc e := by
      rw [List.getD_eq_getElem?_getD, List.getElem?_map, List.getElem?_range he']
      rfl
    have htn : (assign_dev.getD e 0).toNat < prob.P := by omega
    have hcand : (assign_dev.getD e 0).toNat ∈ prob.coverCandidates place_loc e := by
      unfold CloudletProblem.coverCandidates
      refine List.mem_filter.mpr ⟨List.mem_range.mpr htn, ?_⟩
      simp only [Bool.and_eq_true, decide_eq_true_eq]
      exact ⟨hplaced, hrad⟩
    rw [hfe]
    exact List.mem_map.mpr
      ⟨(assign_dev.getD e 0).toNat, hcand, Int.toNat_of_nonneg hge⟩
  have hpass : prob.onePass ((List.range prob.E).map (prob.coverCandidates place_loc))
      place_loc assign_dev = (assign_dev, false) := by
    unfold CloudletProblem.onePass
    have hfold : (List.range prob.P).foldl
        (prob.passStep ((List.range prob.E).map (prob.coverCandidates place_loc)) place_loc)
        ⟨assign_dev, prob.usedOf assign_dev, false⟩
        = ⟨assign_dev, prob.usedOf assign_dev, false⟩ := by
      apply foldl_fixed_of_step_id
      intro p hp
      have hp' : p < prob.P := List.mem_range.mp hp
      unfold CloudletProblem.passStep
      dsimp only
      by_cases hc : place_loc.getD p 0 = 0
      · rw [if_pos hc]
      · rw [if_neg hc, if_neg]
        push_neg
        have hcaps : prob.capacity_of place_loc p
            = ((prob.cloudlet_types.getD (place_loc.getD p 0 - 1) default).CPU,
               (prob.cloudlet_types.getD (place_loc.getD p 0 - 1) default).MEM,
               (prob.cloudlet_types.getD (place_loc.getD p 0 - 1) default).STO) := by
          unfold CloudletProblem.capacity_of
          rw [if_neg hc]
        obtain ⟨h1, h2, h3⟩ := hcap p hp' hc
        rw [hcaps]
        exact ⟨h1, h2, h3⟩
    rw [hfold]
  have hrep : prob.repair_solution rc place_loc assign_dev = (place_loc, assign_dev) := by
    unfold CloudletProblem.repair_solution
    rw [hfix]
    dsimp only
    rw [show (3 : ℕ) = 2 + 1 from rfl]
    unfold CloudletProblem.capacityFix
    rw [hpass]
    simp
  refine ⟨hrep, ?_⟩
  rw [hrep]
  show prob.coveragePen place_loc assign_dev + prob.capacityPen place_loc assign_dev = 0
  have hcov : prob.coveragePen place_loc assign_dev = 0 := by
    rw [CloudletProblem.coveragePen_eq_sum]
    apply Finset.sum_eq_zero
    intro e he
    have he' : e < prob.E := Finset.mem_range.mp he
    obtain ⟨hge, hlt, hplaced, hrad⟩ := hfeas e he'
    unfold CloudletProblem.coverageTerm
    dsimp only
    rw [if_neg (by push_neg; exact ⟨hge, hlt⟩)]
    rw [if_neg (by omega)]
    rw [if_neg]
    push_neg
    refine le_trans hrad ?_
    have : (0 : ℚ) < eps := by norm_num [eps]
    linarith
  have hcapz : prob.capacityPen place_loc assign_dev = 0 := by
    rw [CloudletProblem.capacityPen_eq_sum]
    apply Finset.sum_eq_zero
    intro p hp
    have hp' : p < prob.P := Finset.mem_range.mp hp
    unfold CloudletProblem.capacityTerm
    dsimp only
    by_cases hc : place_loc.getD p 0 = 0
    · rw [if_pos hc, if_neg]
      push_neg
      have hzero : ∀ sel : Demand → ℚ,
          (∑ e ∈ Finset.range prob.E,
            if assign_dev.getD e 0 = (p : ℤ) then sel (prob.demands.getD e default) else 0)
          = 0 := by
        intro sel
        apply Finset.sum_eq_zero
        intro e he
        have he' : e < prob.E := Finset.mem_range.mp he
        rw [if_neg]
        intro heq
        obtain ⟨hge, hlt, hplaced, hrad⟩ := hfeas e he'
        rw [heq] at hplaced
        rw [Int.toNat_natCast] at hplaced
        omega
      refine ⟨?_, ?_, ?_⟩
      · unfold CloudletProblem.cpuUsed
        exact le_of_eq (hzero fun d => d.cpu)
      · unfold CloudletProblem.memUsed
        exact le_of_eq (hzero fun d => d.mem)
      · unfold CloudletProblem.stoUsed
        exact le_of_eq (hzero fun d => d.sto)
    · rw [if_neg hc]
      obtain ⟨h1, h2, h3⟩ := hcap p hp' hc
      have heps : (0 : ℚ) < eps := by norm_num [eps]
      rw [if_neg (by push_neg; linarith), if_neg (by push_neg; linarith),
        if_neg (by push_neg; linarith)]
      norm_num
  rw [hcov, hcapz, add_zero]

/-- Problem instance for the C5 witness: one placed location strictly
covering its one device with strictly sufficient capacity. -/
def prob5w : CloudletProblem :=
  { P := 1, E := 1,
    cloudlet_types := [⟨1, 1, 1, 1⟩],
    demands := [⟨1, 0, 0⟩],
    placement_cost := fun _ _ => 0,
    dist := fun _ _ => 1 / 2 }

/-- Witness for the amended C5 at a concrete strictly feasible solution. -/
theorem C5_repair_preserves_strict_feasible_witness :
    prob5w.repair_solution (fun _ l => l.headD 0) [1] [0] = ([1], [0]) ∧
    (prob5w.evaluate (prob5w.repair_solution (fun _ l => l.headD 0) [1] [0]).1
      (prob5w.repair_solution (fun _ l => l.headD 0) [1] [0]).2).penalty = 0 :=
  C5_repair_preserves_strict_feasible prob5w (fun _ l => l.headD 0) [1] [0]
    (by norm_num [CloudletProblem.evaluate, CloudletProblem.coveragePen,
      CloudletProblem.capacityPen, CloudletProblem.coverageTerm, CloudletProblem.capacityTerm,
      CloudletProblem.cpuUsed, CloudletProblem.memUsed, CloudletProblem.stoUsed, prob5w, eps,
      Finset.sum_range_succ, show List.range 1 = [0] from by decide])
    (by
      intro e he
      have he1 : e < 1 := by simpa [prob5w] using he
      interval_cases e
      norm_num [prob5w])
    (by
      intro p hp hne
      have hp1 : p < 1 := by simpa [prob5w] using hp
      interval_cases p
      norm_num [CloudletProblem.cpuUsed, CloudletProblem.memUsed, CloudletProblem.stoUsed,
        prob5w, Finset.sum_range_succ])

/-- Problem instance refuting claim C5 as stated: location 0 carries type 0
and its device at distance `1 + 1e-9` (inside `evaluate`'s tolerance, but
outside `repair`'s strict radius test), location 1 carries type 1 with zero
CPU capacity and covers the device at distance `1/2`. -/
def prob5 : CloudletProblem :=
  { P := 2, E := 1,
    cloudlet_types := [⟨1, 1, 1, 1⟩, ⟨1, 0, 1, 1⟩],
    demands := [⟨1, 0, 0⟩],
    placement_cost := fun _ _ => 0,
    dist := fun _ p => if p = 0 then 1 + 1 / 1000000000 else 1 / 2 }

/-- C5 (counterexample): the solution `([1, 2], [0])` evaluates to penalty
zero, but `repair_solution` — whose feasibility test has no `1e-9`
tolerance — reassigns the device to location 1 (the unique entry of its
feasible pool, so `np.random.choice` is deterministic here), where the
placed type's CPU capacity is exceeded: the repaired pair has penalty
`1e4`, not zero. -/
theorem C5_counterexample :
    (prob5.evaluate [1, 2] [0]).penalty = 0 ∧
    (prob5.evaluate (prob5.repair_solution (fun _ l => l.headD 0) [1, 2] [0]).1
      (prob5.repair_solution (fun _ l => l.headD 0) [1, 2] [0]).2).penalty ≠ 0 := by
  have hcand : prob5.coverCandidates [1, 2] 0 = [1] := by
    unfold CloudletProblem.coverCandidates
    rw [show List.range prob5.P = [0, 1] from by decide]
    norm_num [List.filter_cons, List.filter_nil, prob5, eps]
  have hmap : (List.range prob5.E).map (prob5.coverCandidates [1, 2]) = [[1]] := by
    rw [show List.range prob5.E = [0] from by decide, List.map_cons, List.map_nil, hcand]
  have hfix5 : prob5.fixAssignments (fun _ l => l.headD 0) [1, 2] [0]
      = ⟨[1, 2], [1], [[1]]⟩ := by
    unfold CloudletProblem.fixAssignments
    rw [hmap, show List.range prob5.E = [0] from by decide]
    decide
  have hpass5 : prob5.onePass [[1]] [1, 2] [1] = ([1], false) := by
    unfold CloudletProblem.onePass
    rw [show List.range prob5.P = [0, 1] from by decide]
    norm_num [CloudletProblem.passStep, CloudletProblem.capacity_of, CloudletProblem.usedOf,
      CloudletProblem.cpuUsed, CloudletProblem.memUsed, CloudletProblem.stoUsed,
      CloudletProblem.moveLoop, sortDescBy, insertDescBy, CloudletProblem.totalDemand,
      Finset.sum_range_succ, List.foldl_cons, List.foldl_nil, List.filter_cons, List.filter_nil,
      prob5, eps, show List.range prob5.E = [0] from by decide]
  have hrep5 : prob5.repair_solution (fun _ l => l.headD 0) [1, 2] [0] = ([1, 2], [1]) := by
    unfold CloudletProblem.repair_solution
    rw [hfix5]
    dsimp only
    rw [show (3 : ℕ) = 2 + 1 from rfl]
    unfold CloudletProblem.capacityFix
    rw [hpass5]
    simp
  constructor
  · norm_num [CloudletProblem.evaluate, CloudletProblem.coveragePen,
      CloudletProblem.capacityPen, CloudletProblem.coverageTerm, CloudletProblem.capacityTerm,
      CloudletProblem.cpuUsed, CloudletProblem.memUsed, CloudletProblem.stoUsed, prob5, eps,
      Finset.sum_range_succ, show List.range 2 = [0, 1] from by decide,
      show List.range 1 = [0] from by decide]
  · rw [hrep5]
    norm_num [CloudletProblem.evaluate, CloudletProblem.coveragePen,
      CloudletProblem.capacityPen, CloudletProblem.coverageTerm, CloudletProblem.capacityTerm,
      CloudletProblem.cpuUsed, CloudletProblem.memUsed, CloudletProblem.stoUsed, prob5, eps,
      Finset.sum_range_succ, show List.range 2 = [0, 1] from by decide,
      show List.range 1 = [0] from by decide]

/-! ### Optimizer construction (`hybrid_ff_pso.py` lines 34-61) -/

/-- `Particle.__init__` (lines 34-43): current solution, zeroed velocity
arrays (never used by the moves), personal-best snapshot and its score
initialised to `np.inf` (`⊤`). -/
structure Particle where
  place_loc : List ℕ
  assign_dev : List ℤ
  v_place : List ℚ
  v_assign : List ℚ
  pbest_place : List ℕ
  pbest_assign : List ℤ
  pbest_score : WithTop ℚ

/-- Build one particle from a fresh random solution. -/
def Particle.init (place_loc : List ℕ) (assign_dev : List ℤ) : Particle :=
  { place_loc := place_loc, assign_dev := assign_dev,
    v_place := List.replicate place_loc.length 0,
    v_assign := List.replicate assign_dev.length 0,
    pbest_place := place_loc, pbest_assign := assign_dev,
    pbest_score := ⊤ }

/-- The random draws one `random_solution` call consumes. -/
structure RSDraws where
  loc_indices : List ℕ
  typeOf : ℕ → ℕ
  devChoice : ℕ → List ℕ → ℕ

/-- The optimizer state set up by `HybridFFPSO.__init__` (lines 46-61). -/
structure HybridState where
  population : List Particle
  global_best : Option (List ℕ × List ℤ)
  global_best_score : WithTop ℚ
  archive : List ArchiveEntry
  pop_size : ℕ
  max_iter : ℕ

/-- `HybridFFPSO.__init__` (lines 46-61) with the per-particle draws given
by the oracle `ds`.  The source performs NO configuration validation: the
only way construction can fail is the `ValueError` numpy raises inside
`random_solution` — `np.random.choice(P, size=k, replace=False)` with
`P = 0`, or `np.random.randint(0, T)` with `T = 0` — which happens exactly
when the population loop runs at least once on such a problem.  (The drawn
`active_count` is in `[1, max(1, P // 4)]`, which never exceeds `P` when
`P ≥ 1`, so `choice` cannot fail for `P ≥ 1`.) -/
def HybridFFPSO.init (prob : CloudletProblem) (ds : ℕ → RSDraws)
    (pop_size max_iter : ℕ) : Except String HybridState :=
  if 0 < pop_size ∧ (prob.P = 0 ∨ prob.T = 0) then
    Except.error "ValueError raised by np.random inside random_solution"
  else
    Except.ok
      { population := (List.range pop_size).map (fun i =>
          let s := prob.random_solution (ds i).loc_indices (ds i).typeOf (ds i).devChoice
          Particle.init s.1 s.2),
        global_best := none,
        global_best_score := ⊤,
        archive := [],
        pop_size := pop_size,
        max_iter := max_iter }

/-- Valid problem instance for the C7 counterexample. -/
def prob7 : CloudletProblem :=
  { P := 1, E := 1,
    cloudlet_types := [⟨1, 1, 1, 1⟩],
    demands := [⟨1, 0, 0⟩],
    placement_cost := fun _ _ => 0,
    dist := fun _ _ => 0 }

/-- C7 (counterexample): constructing the optimizer with population size 0
and generation count 0 does NOT fail — it returns a normal state with an
empty population; there is no configuration validation anywhere in either
constructor. -/
theorem C7_counterexample :
    HybridFFPSO.init prob7 (fun _ => ⟨[0], fun _ => 0, fun _ l => l.headD 0⟩) 0 0
      = Except.ok
          { population := [], global_best := none, global_best_score := ⊤,
            archive := [], pop_size := 0, max_iter := 0 } := rfl

/-- C7 (amended): neither constructor validates its configuration.
Optimizer construction succeeds — with a population of exactly `pop_size`
particles and the given `max_iter` stored — if and only if the population
loop never has to draw from an empty range: either `pop_size = 0`
(accepted silently, as is `max_iter = 0`), or the problem has at least one
location and one cloudlet type.  The failure in the remaining case is an
incidental numpy `ValueError` from inside `random_solution`, not a
descriptive configuration error, and problem-model construction itself
never fails. -/
theorem C7_no_validation (prob : CloudletProblem) (ds : ℕ → RSDraws)
    (pop_size max_iter : ℕ) :
    (∃ st, HybridFFPSO.init prob ds pop_size max_iter = Except.ok st ∧
        st.population.length = pop_size ∧ st.pop_size = pop_size ∧ st.max_iter = max_iter)
      ↔ (pop_size = 0 ∨ (prob.P ≠ 0 ∧ prob.T ≠ 0)) := by
  unfold HybridFFPSO.init
  split
  · rename_i hcond
    simp only [reduceCtorEq, false_and, exists_false, false_iff]
    push_neg
    exact ⟨by omega, fun hP => by tauto⟩
  · rename_i hcond
    push_neg at hcond
    constructor
    · intro _
      by_cases hp : pop_size = 0
      · exact Or.inl hp
      · exact Or.inr (hcond (by omega))
    · intro _
      exact ⟨_, rfl, by simp, rfl, rfl⟩

/-! ### Firefly phase (`hybrid_ff_pso.py` lines 137-156 and 194-203)

`random.random()` is drawn once per differing slot, in slot order, within
each `firefly_move` call; the draws are modelled as the per-slot oracle
values `drawP ii jj p` / `drawA ii jj e` for the move of the pair at rank
positions `(ii, jj)`.  The `beta0` and `gamma` parameters of the source are
unused by its body. -/

/-- Placement half of `HybridFFPSO.firefly_move` (lines 146-149): each slot
where the two particles differ adopts the brighter particle's value exactly
when its draw is below `0.5`. -/
def HybridFFPSO.firefly_move_place (P : ℕ) (rp : ℕ → ℚ) (cur bright : List ℕ) : List ℕ :=
  (List.range P).foldl (fun pl p =>
    if bright.getD p 0 ≠ pl.getD p 0 ∧ rp p < 1 / 2 then pl.set p (bright.getD p 0) else pl) cur

/-- Assignment half of `HybridFFPSO.firefly_move` (lines 152-156): copy
probability `0.4`. -/
def HybridFFPSO.firefly_move_assign (E : ℕ) (ra : ℕ → ℚ) (cur bright : List ℤ) : List ℤ :=
  (List.range E).foldl (fun ad e =>
    if bright.getD e 0 ≠ ad.getD e 0 ∧ ra e < 2 / 5 then ad.set e (bright.getD e 0) else ad) cur

/-- Stable ascending insertion by a key: an element goes before the first
element whose key is `≥` its own, so equal keys keep their original order —
the behaviour of Python's stable `sorted`. -/
def insertAscBy (key : ℕ → ℚ) (x : ℕ) : List ℕ → List ℕ
  | [] => [x]
  | y :: ys => if key x ≤ key y then x :: y :: ys else y :: insertAscBy key x ys

/-- Stable ascending sort by a key. -/
def sortAscBy (key : ℕ → ℚ) (l : List ℕ) : List ℕ := l.foldr (insertAscBy key) []

/-- `sorted_idx = sorted(range(n), key=lambda i: evals[i]['fitness'])`
(line 195). -/
def HybridFFPSO.rankIdx (fits : List ℚ) (n : ℕ) : List ℕ :=
  sortAscBy (fun i => fits.getD i 0) (List.range n)

/-- One firefly interaction of the phase: the particle at rank position
`pr.1` moves toward the brighter one at rank position `pr.2`
(`self.firefly_move(self.population[i], self.population[j])`, line 203). -/
def HybridFFPSO.fireflyStep (P E : ℕ) (drawP drawA : ℕ → ℕ → ℕ → ℚ)
    (idx : List ℕ) (pop : List (List ℕ × List ℤ)) (pr : ℕ × ℕ) :
    List (List ℕ × List ℤ) :=
  let i := idx.getD pr.1 0
  let j := idx.getD pr.2 0
  let si := pop.getD i ([], [])
  let sj := pop.getD j ([], [])
  pop.set i (HybridFFPSO.firefly_move_place P (drawP pr.1 pr.2) si.1 sj.1,
             HybridFFPSO.firefly_move_assign E (drawA pr.1 pr.2) si.2 sj.2)

/-- The firefly phase of `run` (lines 196-203): the nested loop over rank
positions `ii` and `jj < ii`, moving only when the particle at rank `jj`
has strictly lower fitness. -/
def HybridFFPSO.fireflyPhase (P E : ℕ) (drawP drawA : ℕ → ℕ → ℕ → ℚ)
    (fits : List ℚ) (pop : List (List ℕ × List ℤ)) : List (List ℕ × List ℤ) :=
  let n := pop.length
  let idx := HybridFFPSO.rankIdx fits n
  (List.range n).foldl (fun pp ii =>
    (List.range ii).foldl (fun pp jj =>
      if fits.getD (idx.getD jj 0) 0 < fits.getD (idx.getD ii 0) 0 then
        HybridFFPSO.fireflyStep P E drawP drawA idx pp (ii, jj)
      else pp) pp) pop

/-- The rank-ordered list of (dim, brighter) rank-position pairs the phase
visits: `jj < ii` in rank order, restricted to strictly brighter partners. -/
def HybridFFPSO.fireflyPairs (fits : List ℚ) (n : ℕ) : List (ℕ × ℕ) :=
  let idx := HybridFFPSO.rankIdx fits n
  (List.range n).flatMap (fun ii =>
    ((List.range ii).filter (fun jj =>
      decide (fits.getD (idx.getD jj 0) 0 < fits.getD (idx.getD ii 0) 0))).map
        (fun jj => (ii, jj)))

/-- Folding over a filtered list is folding with a guard. -/
theorem foldl_filter_eq {α β : Type _} (q : β → Bool) (f : α → β → α) :
    ∀ (l : List β) (a : α),
      (l.filter q).foldl f a = l.foldl (fun a x => if q x = true then f a x else a) a := by
  intro l
  induction l with
  | nil => intro a; rfl
  | cons x rest ih =>
    intro a
    rw [List.filter_cons]
    split
    · rw [List.foldl_cons, List.foldl_cons, if_pos (by assumption), ih]
    · rw [List.foldl_cons, if_neg (by simp_all), ih]

/-- Folding over a flattened list of blocks is the nested fold. -/
theorem foldl_bind_eq {α β γ : Type _} (g : β → List γ) (f : α → γ → α) :
    ∀ (l : List β) (a : α),
      (l.flatMap g).foldl f a = l.foldl (fun a x => (g x).foldl f a) a := by
  intro l
  induction l with
  | nil => intro a; rfl
  | cons x rest ih =>
    intro a
    rw [List.flatMap_cons, List.foldl_append, ih, List.foldl_cons]

/-- A fold of guarded single-slot overwrites, described pointwise: a slot
is overwritten exactly when it is visited and its guard holds on the
original vector (each slot is visited at most once). -/
theorem foldl_cond_set_getD {α : Type _} [DecidableEq α] (d : α) (b : ℕ → α)
    (cond : ℕ → Prop) [DecidablePred cond] :
    ∀ (l : List ℕ) (cur : List α), l.Nodup → ∀ q, q < cur.length →
      ((l.foldl (fun pl p => if b p ≠ pl.getD p d ∧ cond p then pl.set p (b p) else pl)
          cur).getD q d)
        = if q ∈ l ∧ b q ≠ cur.getD q d ∧ cond q then b q else cur.getD q d := by
  intro l
  induction l with
  | nil =>
    intro cur _ q _
    simp
  | cons p rest ih =>
    intro cur hnd q hq
    have hnd' : rest.Nodup := hnd.of_cons
    have hpnot : p ∉ rest := (List.nodup_cons.mp hnd).1
    rw [List.foldl_cons]
    by_cases hcond : b p ≠ cur.getD p d ∧ cond p
    · rw [if_pos hcond]
      have hlen : q < (cur.set p (b p)).length := by rwa [List.length_set]
      rw [ih (cur.set p (b p)) hnd' q hlen]
      by_cases hqr : q ∈ rest
      · have hqp : q ≠ p := fun h => hpnot (h ▸ hqr)
        have hset : (cur.set p (b p)).getD q d = cur.getD q d := by
          rw [List.getD_eq_getElem?_getD, List.getElem?_set_ne (fun h => hqp h.symm),
            ← List.getD_eq_getElem?_getD]
        rw [hset]
        by_cases hbq : b q ≠ cur.getD q d ∧ cond q
        · rw [if_pos ⟨hqr, hbq⟩, if_pos ⟨List.mem_cons_of_mem p hqr, hbq⟩]
        · rw [if_neg (fun h => hbq h.2), if_neg (fun h => hbq h.2)]
      · by_cases hqp : q = p
        · subst hqp
          have hqlen : q < cur.length := hq
          have hset : (cur.set q (b q)).getD q d = b q := by
            rw [List.getD_eq_getElem?_getD, List.getElem?_set_self hqlen]
            rfl
          rw [if_neg (fun h => hqr h.1), hset,
            if_pos ⟨List.mem_cons_self q rest, hcond⟩]
        · have hset : (cur.set p (b p)).getD q d = cur.getD q d := by
            rw [List.getD_eq_getElem?_getD, List.getElem?_set_ne (fun h => hqp h.symm),
              ← List.getD_eq_getElem?_getD]
          rw [if_neg (fun h => hqr h.1), hset, if_neg ?_]
          intro h
          rcases List.mem_cons.mp h.1 with h' | h'
          · exact hqp h'
          · exact hqr h'
    · rw [if_neg hcond]
      rw [ih cur hnd' q hq]
      by_cases hqr : q ∈ rest
      · by_cases hbq : b q ≠ cur.getD q d ∧ cond q
        · rw [if_pos ⟨hqr, hbq⟩, if_pos ⟨List.mem_cons_of_mem p hqr, hbq⟩]
        · rw [if_neg (fun h => hbq h.2), if_neg (fun h => hbq h.2)]
      · by_cases hqp : q = p
        · subst hqp
          rw [if_neg (fun h => hqr h.1), if_neg ?_]
          intro h
          exact hcond h.2
        · rw [if_neg (fun h => hqr h.1), if_neg ?_]
          intro h
          rcases List.mem_cons.mp h.1 with h' | h'
          · exact hqp h'
          · exact hqr h'

/-- C8: in the firefly phase, (1) a placement slot where mover and brighter
partner differ is overwritten by the partner's value exactly when its draw
is below `0.5`, (2) a differing assignment slot exactly when its draw is
below `0.4` (slots where the two agree are untouched and consume no draw),
and (3) the whole phase equals the fold of single moves over exactly the
rank-ordered pairs `(ii, jj)` with `jj < ii` whose partner at rank `jj` has
strictly lower fitness — pairs visited in rank order. -/
theorem C8_firefly_phase (P E : ℕ) (drawP drawA : ℕ → ℕ → ℕ → ℚ) (rp ra : ℕ → ℚ)
    (fits : List ℚ) (pop : List (List ℕ × List ℤ))
    (cur bright : List ℕ) (curA brightA : List ℤ)
    (hlen : cur.length = P) (hlenA : curA.length = E) :
    (∀ q, q < P →
      (HybridFFPSO.firefly_move_place P rp cur bright).getD q 0
        = if bright.getD q 0 ≠ cur.getD q 0 ∧ rp q < 1 / 2 then bright.getD q 0
          else cur.getD q 0) ∧
    (∀ e, e < E →
      (HybridFFPSO.firefly_move_assign E ra curA brightA).getD e 0
        = if brightA.getD e 0 ≠ curA.getD e 0 ∧ ra e < 2 / 5 then brightA.getD e 0
          else curA.getD e 0) ∧
    HybridFFPSO.fireflyPhase P E drawP drawA fits pop
      = (HybridFFPSO.fireflyPairs fits pop.length).foldl
          (HybridFFPSO.fireflyStep P E drawP drawA (HybridFFPSO.rankIdx fits pop.length))
          pop := by
  refine ⟨?_, ?_, ?_⟩
  · intro q hq
    unfold HybridFFPSO.firefly_move_place
    rw [foldl_cond_set_getD 0 (fun p => bright.getD p 0) (fun p => rp p < 1 / 2)
      (List.range P) cur (List.nodup_range P) q (by omega)]
    simp [List.mem_range, hq]
  · intro e he
    unfold HybridFFPSO.firefly_move_assign
    rw [foldl_cond_set_getD 0 (fun p => brightA.getD p 0) (fun p => ra p < 2 / 5)
      (List.range E) curA (List.nodup_range E) e (by omega)]
    simp [List.mem_range, he]
  · unfold HybridFFPSO.fireflyPhase HybridFFPSO.fireflyPairs
    dsimp only
    rw [foldl_bind_eq]
    simp only [List.foldl_map, foldl_filter_eq, decide_eq_true_eq]

/-- Witness for C8 at a two-particle population with distinct fitnesses. -/
theorem C8_firefly_phase_witness :
    ([0] : List ℕ).length = 1 ∧ ([0] : List ℤ).length = 1 ∧
    ((∀ q, q < 1 →
      (HybridFFPSO.firefly_move_place 1 (fun _ => 0) [0] [1]).getD q 0
        = if ([1] : List ℕ).getD q 0 ≠ ([0] : List ℕ).getD q 0 ∧ (0 : ℚ) < 1 / 2
          then ([1] : List ℕ).getD q 0 else ([0] : List ℕ).getD q 0) ∧
    (∀ e, e < 1 →
      (HybridFFPSO.firefly_move_assign 1 (fun _ => 0) [0] [1]).getD e 0
        = if ([1] : List ℤ).getD e 0 ≠ ([0] : List ℤ).getD e 0 ∧ (0 : ℚ) < 2 / 5
          then ([1] : List ℤ).getD e 0 else ([0] : List ℤ).getD e 0) ∧
    HybridFFPSO.fireflyPhase 1 1 (fun _ _ _ => 0) (fun _ _ _ => 0) [1, 0]
        [([0], [0]), ([1], [1])]
      = (HybridFFPSO.fireflyPairs [1, 0] ([([0], [0]), ([1], [1])] :
            List (List ℕ × List ℤ)).length).foldl
          (HybridFFPSO.fireflyStep 1 1 (fun _ _ _ => 0) (fun _ _ _ => 0)
            (HybridFFPSO.rankIdx [1, 0] ([([0], [0]), ([1], [1])] :
              List (List ℕ × List ℤ)).length))
          [([0], [0]), ([1], [1])]) :=
  ⟨rfl, rfl,
    C8_firefly_phase 1 1 (fun _ _ _ => 0) (fun _ _ _ => 0) (fun _ => 0) (fun _ => 0)
      [1, 0] [([0], [0]), ([1], [1])] [0] [1] [0] [1] rfl rfl⟩
